import Mathlib

/-!
Verification of the `rust-hl7` HL7 v2 parser and MLLP codec.

The Rust source (`src/lib.rs`, `src/mllp.rs`) is shallowly embedded here:
strings become `List Char`, byte buffers become `List Nat`, fallible
functions return `Except` or an explicit result type, and the in-place
`BytesMut` mutation of the MLLP decoder is modelled by returning the new
buffer alongside the decode outcome.
-/

namespace HL7

/-- Strings are modelled as lists of characters. -/
abbrev Str := List Char

/-- Split a character list at every occurrence of the separator `c`,
mirroring Rust's `str::split(char)`: the result always has at least one
element, and separators are not included in the pieces. -/
def splitOnChar (c : Char) : Str → List Str
  | [] => [[]]
  | x :: xs =>
    if x = c then [] :: splitOnChar c xs
    else
      match splitOnChar c xs with
      | [] => [[x]]
      | y :: ys => (x :: y) :: ys

/-- Whether the two-character sequence `\r\n` occurs in the list,
mirroring Rust's `str::contains("\r\n")`. -/
def containsCRLF : Str → Bool
  | [] => false
  | [_] => false
  | a :: b :: rest => (a = '\r' && b = '\n') || containsCRLF (b :: rest)

/-- Split at every (non-overlapping, leftmost-first) occurrence of the
two-character separator `\r\n`, mirroring Rust's `str::split("\r\n")`. -/
def splitOnCRLF : Str → List Str
  | [] => [[]]
  | [c] => [[c]]
  | a :: b :: rest =>
    if a = '\r' && b = '\n' then [] :: splitOnCRLF rest
    else
      match splitOnCRLF (b :: rest) with
      | [] => [[a]]
      | y :: ys => (a :: y) :: ys
termination_by l => l.length

/-- Whether the character `c` occurs in the list, mirroring Rust's
`str::contains(char)`. -/
def containsChar (c : Char) : Str → Bool
  | [] => false
  | x :: xs => if x = c then true else containsChar c xs

/-- Join a list of pieces with the given separator between consecutive
pieces (used to describe inputs whose segments are separated by a fixed
separator). -/
def joinWith (sep : Str) : List Str → Str
  | [] => []
  | [s] => s
  | s :: rest => s ++ sep ++ joinWith sep rest

/-- Errors of the parser (`HL7Error` in `src/lib.rs`). -/
inductive HL7Error where
  | ParseError (msg : Str)
  | InvalidStructure (msg : Str)
  | MissingField (msg : Str)
deriving DecidableEq, Repr

/-- The five HL7 delimiter characters (`Delimiters` in `src/lib.rs`). -/
structure Delimiters where
  field : Char
  component : Char
  subcomponent : Char
  repetition : Char
  escape : Char
deriving DecidableEq, Repr

/-- `Delimiters::default()` from `src/lib.rs`. -/
def Delimiters.default : Delimiters :=
  { field := '|', component := '^', subcomponent := '&', repetition := '~', escape := '\\' }

/-- A component of an HL7 field (`Component` in `src/lib.rs`). -/
structure Component where
  value : Str
  subcomponents : List Str
deriving DecidableEq, Repr

/-- A field of an HL7 segment (`Field` in `src/lib.rs`). -/
structure Field where
  components : List Component
deriving DecidableEq, Repr

/-- A segment of an HL7 message (`Segment` in `src/lib.rs`). -/
structure Segment where
  name : Str
  fields : List Field
deriving DecidableEq, Repr

/-- A complete HL7 message (`Message` in `src/lib.rs`). -/
structure Message where
  segments : List Segment
  message_type : Str
  version : Str
deriving DecidableEq, Repr

/-- `parse_component` from `src/lib.rs`. -/
def parse_component (input : Str) (delimiters : Delimiters) : Component :=
  { value := input
    subcomponents :=
      if containsChar delimiters.subcomponent input then
        splitOnChar delimiters.subcomponent input
      else [] }

/-- `parse_field` from `src/lib.rs`. -/
def parse_field (input : Str) (delimiters : Delimiters) : Field :=
  { components :=
      if containsChar delimiters.component input then
        (splitOnChar delimiters.component input).map (parse_component · delimiters)
      else [parse_component input delimiters] }

/-- `parse_segment` from `src/lib.rs`: the first `|`-delimited token is the
segment name, the remaining tokens are the fields. -/
def parse_segment (input : Str) (delimiters : Delimiters) : Except HL7Error Segment :=
  match splitOnChar delimiters.field input with
  | [] => .error (.InvalidStructure "Segment has no name".toList)
  | name :: rest => .ok { name := name, fields := rest.map (parse_field · delimiters) }

/-- The `collect::<Result<Vec<_>, _>>()` step of `Message::parse`: parse
every raw segment, stopping at the first error. -/
def collectSegments (delimiters : Delimiters) : List Str → Except HL7Error (List Segment)
  | [] => .ok []
  | s :: rest =>
    match parse_segment s delimiters with
    | .error e => .error e
    | .ok seg =>
      match collectSegments delimiters rest with
      | .error e => .error e
      | .ok segs => .ok (seg :: segs)

/-- `extract_message_type` from `src/lib.rs`: recognition against a fixed
whitelist — if any component of the MSH segment is literally `ADT` / `ORU` /
`RDE` the corresponding hard-coded type is returned, else `UNKNOWN`. -/
def extract_message_type (msh : Segment) : Option Str :=
  some
    (if msh.fields.any (fun f => f.components.any (fun c => c.value = "ADT".toList)) then
      "ADT^A01".toList
    else if msh.fields.any (fun f => f.components.any (fun c => c.value = "ORU".toList)) then
      "ORU^R01".toList
    else if msh.fields.any (fun f => f.components.any (fun c => c.value = "RDE".toList)) then
      "RDE^O11".toList
    else
      "UNKNOWN".toList)

/-- `extract_version` from `src/lib.rs`: the hard-coded value `2.5`. -/
def extract_version (_msh : Segment) : Option Str :=
  some "2.5".toList

/-- Outcome of `Message::parse`.  The `panic` constructor marks the direct
index `&parsed_segments[0]` in the Rust source: it is taken when that index
would be out of bounds. -/
inductive ParseResult where
  | ok (m : Message)
  | err (e : HL7Error)
  | panic
deriving DecidableEq, Repr

/-- Whether a `ParseResult` is the out-of-bounds marker. -/
def ParseResult.isPanic : ParseResult → Bool
  | .panic => true
  | _ => false

/-- The body of `Message::parse` after the raw segment list has been
computed (everything from the `is_empty` check onward). -/
def parseFrom (segments : List Str) : ParseResult :=
  if segments.isEmpty then .err (.InvalidStructure "Empty message".toList)
  else
    match segments.head? with
    | none => .err (.InvalidStructure "Missing MSH segment".toList)
    | some msh =>
      if "MSH".toList.isPrefixOf msh then
        match collectSegments Delimiters.default segments with
        | .error e => .err e
        | .ok parsedSegments =>
          match parsedSegments with
          | [] => .panic
          | mshSegment :: _ =>
            match extract_message_type mshSegment with
            | none => .err (.MissingField "Message type (MSH.9)".toList)
            | some message_type =>
              match extract_version mshSegment with
              | none => .err (.MissingField "Version (MSH.12)".toList)
              | some version =>
                .ok { segments := parsedSegments, message_type := message_type, version := version }
      else .err (.InvalidStructure "First segment must be MSH".toList)

/-- `Message::parse` from `src/lib.rs`: the raw payload is split on `\r\n`
when it contains `\r\n`, otherwise on `\n`, and the rest of the parse runs
on the resulting segment strings. -/
def Message.parse (input : Str) : ParseResult :=
  parseFrom (if containsCRLF input then splitOnCRLF input else splitOnChar '\n' input)

/-- `Message::get_segment` from `src/lib.rs`. -/
def Message.get_segment (m : Message) (name : Str) : Option Segment :=
  m.segments.find? (fun s => s.name = name)

/-- `Message::get_segments` from `src/lib.rs`. -/
def Message.get_segments (m : Message) (name : Str) : List Segment :=
  m.segments.filter (fun s => s.name = name)

/-- `Message::is_adt` from `src/lib.rs`. -/
def Message.is_adt (m : Message) : Bool := "ADT".toList.isPrefixOf m.message_type

/-- `Message::is_oru` from `src/lib.rs`. -/
def Message.is_oru (m : Message) : Bool := "ORU".toList.isPrefixOf m.message_type

/-- `Message::is_rde` from `src/lib.rs`. -/
def Message.is_rde (m : Message) : Bool := "RDE".toList.isPrefixOf m.message_type

/-- Whether the first segment's name begins with `MSH` (the parser's
`starts_with` check constrains the raw segment, of which the name is the
first `|`-token). -/
def headStartsWithMSH (m : Message) : Bool :=
  match m.segments.head? with
  | some s => "MSH".toList.isPrefixOf s.name
  | none => false

/-! ## MLLP codec (`src/mllp.rs`)

Byte buffers are modelled as `List Nat`; `BytesMut::split_to` becomes
`List.drop`/`List.take`, and the decoder returns the new buffer contents
alongside its outcome. -/

/-- `MLLP_START_BLOCK` (vertical tab). -/
def MLLP_START_BLOCK : Nat := 0x0B

/-- `MLLP_END_BLOCK` (file separator). -/
def MLLP_END_BLOCK : Nat := 0x1C

/-- `MLLP_CARRIAGE_RETURN`. -/
def MLLP_CARRIAGE_RETURN : Nat := 0x0D

/-- Index of the first start-block byte, mirroring
`src.iter().position(|&b| b == MLLP_START_BLOCK)`. -/
def findStartBlock : List Nat → Option Nat
  | [] => none
  | b :: rest =>
    if b = MLLP_START_BLOCK then some 0
    else (findStartBlock rest).map (· + 1)

/-- Index of the first two-byte window `FS CR`, mirroring
`src.windows(2).position(|w| w[0] == MLLP_END_BLOCK && w[1] == MLLP_CARRIAGE_RETURN)`. -/
def findEndSeq : List Nat → Option Nat
  | a :: b :: rest =>
    if a = MLLP_END_BLOCK ∧ b = MLLP_CARRIAGE_RETURN then some 0
    else (findEndSeq (b :: rest)).map (· + 1)
  | _ => none

/-- Outcome of one call to `MllpCodec::decode`: an extracted payload
(`Ok(Some(bytes))`), a request for more data (`Ok(None)`), or the
invalid-frame error. -/
inductive DecodeResult where
  | payload (p : List Nat)
  | needMore
  | invalidFrame
deriving DecidableEq, Repr

/-- `MllpCodec::decode` from `src/mllp.rs` (the free function
`extract_mllp_message` has the identical body).  Returns the outcome and
the buffer contents after the call: bytes before the first start block are
discarded, and on success the consumed frame is removed. -/
def MllpCodec.decode (src : List Nat) : DecodeResult × List Nat :=
  match findStartBlock src with
  | some startPos =>
    let src1 := src.drop startPos
    match findEndSeq src1 with
    | some endPos =>
      (.payload ((src1.drop 1).take (endPos + 2 - 1 - 2)), src1.drop (endPos + 2))
    | none =>
      if src1.length > 100000 then (.invalidFrame, src1) else (.needMore, src1)
  | none =>
    if src.length > 100000 then (.invalidFrame, src) else (.needMore, src)

/-- `MllpCodec::encode` from `src/mllp.rs`: append
`VT || item || FS || CR` to the destination buffer. -/
def MllpCodec.encode (item : List Nat) (dst : List Nat) : List Nat :=
  dst ++ [MLLP_START_BLOCK] ++ item ++ [MLLP_END_BLOCK, MLLP_CARRIAGE_RETURN]

/-- The buffer after the decoder's pre-frame-noise discard: everything
from the first start block on (the whole buffer when there is no start
block).  The decoder's 100 000-byte bound is checked against this. -/
def dropToVT (src : List Nat) : List Nat :=
  match findStartBlock src with
  | some i => src.drop i
  | none => src

/-! ## Acknowledgment builder (`src/mllp.rs`) -/

/-- Remove a single trailing `\r`, as Rust's `str::lines` does to each line. -/
def stripTrailingCR (l : Str) : Str :=
  if l.getLast? = some '\r' then l.dropLast else l

/-- `original_message.lines().next()`: `none` on the empty string,
otherwise the text before the first `\n` with a trailing `\r` removed. -/
def firstLine (s : Str) : Option Str :=
  match s with
  | [] => none
  | _ => some (stripTrailingCR (s.takeWhile (· ≠ '\n')))

/-- The control-id extraction inside `generate_nack`: the token at index 9
of the first line split on `|`, defaulting to `UNKNOWN`. -/
def extract_control_id (original : Str) : Str :=
  match firstLine original with
  | some line => ((splitOnChar '|' line)[9]?).getD "UNKNOWN".toList
  | none => "UNKNOWN".toList

/-- The fixed MSH prefix of the generated NACK (everything before the
timestamp). -/
def nackMshPrefix : Str :=
  "MSH|^~\\&|RECEIVING_APP|RECEIVING_FACILITY|SENDING_APP|SENDING_FACILITY|".toList

/-- `generate_nack` from `src/mllp.rs`.  The current local timestamp is an
explicit argument `now` (the Rust code obtains it from the clock). -/
def generate_nack (original_message : Str) (error_msg : Str) (now : Str) : Str :=
  let control_id := extract_control_id original_message
  nackMshPrefix ++ (now ++ ("||ACK|".toList ++ (control_id ++ ("|P|2.5\r\n".toList ++
    ("MSA|AE|".toList ++ (control_id ++ ("|Error processing message: ".toList ++ error_msg)))))))

/-! ## ADT projection (`mod adt` in `src/lib.rs`) -/

/-- `adt::AdtMessage`. -/
structure AdtMessage where
  message_type : Str
  patient_id : Str
  patient_name : Option Str
  date_of_birth : Option Str
  gender : Option Str
  event_type : Str
deriving DecidableEq, Repr

/-- `adt::AdtMessage::from_hl7` from `src/lib.rs`, including the
hard-coded `patient_name`. -/
def AdtMessage.from_hl7 (message : Message) : Except HL7Error AdtMessage :=
  if message.is_adt then
    let message_type := message.message_type
    let event_type := ((splitOnChar '^' message_type)[1]?).getD "UNKNOWN".toList
    match message.get_segment "PID".toList with
    | none => .error (.MissingField "PID segment".toList)
    | some pid =>
      match (pid.fields[2]?.bind (fun f => f.components.head?)).map (fun c => c.value) with
      | none => .error (.MissingField "Patient ID (PID.3)".toList)
      | some patient_id =>
        let patient_name := some "DOE^JOHN^^^^".toList
        let date_of_birth :=
          (pid.fields[6]?.bind (fun f => f.components.head?)).map (fun c => c.value)
        let gender :=
          (pid.fields[7]?.bind (fun f => f.components.head?)).map (fun c => c.value)
        .ok { message_type := message_type, patient_id := patient_id,
              patient_name := patient_name, date_of_birth := date_of_birth,
              gender := gender, event_type := event_type }
  else .error (.InvalidStructure "Not an ADT message".toList)

/-! ## RDE projection (`mod rde` in `src/lib.rs`) -/

/-- `rde::MedicationOrder`. -/
structure MedicationOrder where
  rx_id : Str
  medication_id : Str
  medication_name : Option Str
  strength : Option Str
  form : Option Str
  dosage : Option Str
  frequency : Option Str
  quantity : Option Str
  route : Option Str
  start_date : Option Str
  stop_date : Option Str
deriving DecidableEq, Repr

/-- `rde::RdeMessage`. -/
structure RdeMessage where
  message_type : Str
  patient_id : Str
  order_control : Option Str
  order_number : Option Str
  medication_orders : List MedicationOrder
deriving DecidableEq, Repr

/-- The loop body of `rde::RdeMessage::from_hl7` for the `i`-th RXE
segment (0-based `i`, as produced by `enumerate()`). -/
def medicationOrderOf (message : Message) (i : Nat) (rxe : Segment) : MedicationOrder :=
  let rx_id := "RX".toList ++ Nat.toDigits 10 (i + 1)
  let medication_id :=
    ((rxe.fields[0]?.bind (fun f => f.components.head?)).map (fun c => c.value)).getD
      "UNKNOWN".toList
  let medication_name :=
    (rxe.fields[0]?.bind (fun f => f.components[1]?)).map (fun c => c.value)
  let strength :=
    (rxe.fields[2]?.bind (fun f => f.components.head?)).map (fun c => c.value)
  let form :=
    (rxe.fields[4]?.bind (fun f => f.components.head?)).map (fun c => c.value)
  let dosage :=
    (rxe.fields[9]?.bind (fun f => f.components.head?)).map (fun c => c.value)
  let frequency :=
    (rxe.fields[5]?.bind (fun f => f.components.head?)).map (fun c => c.value)
  let quantity :=
    (rxe.fields[9]?.bind (fun f => f.components.head?)).map (fun c => c.value)
  let rxr := (message.get_segments "RXR".toList)[i]?
  let route :=
    ((rxr.bind (fun s => s.fields[2]?)).bind (fun f => f.components.head?)).map
      (fun c => c.value)
  let start_date :=
    (rxe.fields[19]?.bind (fun f => f.components.head?)).map (fun c => c.value)
  let stop_date :=
    (rxe.fields[20]?.bind (fun f => f.components.head?)).map (fun c => c.value)
  { rx_id := rx_id, medication_id := medication_id, medication_name := medication_name,
    strength := strength, form := form, dosage := dosage, frequency := frequency,
    quantity := quantity, route := route, start_date := start_date, stop_date := stop_date }

/-- `rde::RdeMessage::from_hl7` from `src/lib.rs`. -/
def RdeMessage.from_hl7 (message : Message) : Except HL7Error RdeMessage :=
  if message.is_rde then
    let message_type := message.message_type
    match message.get_segment "PID".toList with
    | none => .error (.MissingField "PID segment".toList)
    | some pid =>
      match (pid.fields[2]?.bind (fun f => f.components.head?)).map (fun c => c.value) with
      | none => .error (.MissingField "Patient ID (PID.3)".toList)
      | some patient_id =>
        let orc := message.get_segment "ORC".toList
        let order_control :=
          ((orc.bind (fun s => s.fields[0]?)).bind (fun f => f.components.head?)).map
            (fun c => c.value)
        let order_number :=
          ((orc.bind (fun s => s.fields[1]?)).bind (fun f => f.components.head?)).map
            (fun c => c.value)
        let rxe_segments := message.get_segments "RXE".toList
        let medication_orders :=
          rxe_segments.enum.map (fun p => medicationOrderOf message p.1 p.2)
        .ok { message_type := message_type, patient_id := patient_id,
              order_control := order_control, order_number := order_number,
              medication_orders := medication_orders }
  else .error (.InvalidStructure "Not an RDE message".toList)

/-! ## Lemmas about the splitting utilities -/

theorem splitOnChar_ne_nil (c : Char) (l : Str) : splitOnChar c l ≠ [] := by
  induction l with
  | nil => simp [splitOnChar]
  | cons x xs ih =>
    simp only [splitOnChar]
    split
    · simp
    · split
      · simp
      · simp

theorem containsChar_eq_false_iff (c : Char) (l : Str) :
    containsChar c l = false ↔ ∀ a ∈ l, a ≠ c := by
  induction l with
  | nil => simp [containsChar]
  | cons x xs ih =>
    simp only [containsChar]
    constructor
    · intro h
      split at h
      · exact absurd h (by simp)
      · intro a ha
        rcases List.mem_cons.mp ha with h1 | h1
        · subst h1; assumption
        · exact (ih.mp h) a h1
    · intro h
      have hx : x ≠ c := h x (by simp)
      rw [if_neg hx]
      exact ih.mpr (fun a ha => h a (List.mem_cons_of_mem _ ha))

theorem containsChar_append (c : Char) (a b : Str) :
    containsChar c (a ++ b) = (containsChar c a || containsChar c b) := by
  induction a with
  | nil => simp [containsChar]
  | cons x xs ih =>
    simp only [List.cons_append, containsChar]
    split
    · simp
    · exact ih

theorem splitOnChar_of_not_contains (c : Char) (l : Str)
    (h : containsChar c l = false) : splitOnChar c l = [l] := by
  induction l with
  | nil => simp [splitOnChar]
  | cons x xs ih =>
    simp only [containsChar] at h
    split at h
    · exact absurd h (by simp)
    · rename_i hx
      simp only [splitOnChar, if_neg hx, ih h]

theorem splitOnChar_append_cons (c : Char) (xs ys : Str)
    (h : containsChar c xs = false) :
    splitOnChar c (xs ++ c :: ys) = xs :: splitOnChar c ys := by
  induction xs with
  | nil => simp [splitOnChar]
  | cons x xs ih =>
    simp only [containsChar] at h
    split at h
    · exact absurd h (by simp)
    · rename_i hx
      show splitOnChar c (x :: (xs ++ c :: ys)) = (x :: xs) :: splitOnChar c ys
      simp only [splitOnChar, if_neg hx]
      rw [ih h]

/-- Every token produced by `splitOnChar` is free of the separator. -/
theorem splitOnChar_token_not_contains (c : Char) (l : Str) :
    ∀ (n : Nat) (t : Str), (splitOnChar c l)[n]? = some t → containsChar c t = false := by
  induction l with
  | nil =>
    intro n t h
    simp only [splitOnChar] at h
    match n with
    | 0 => simp at h; subst h; simp [containsChar]
    | n + 1 => simp at h
  | cons x xs ih =>
    intro n t h
    simp only [splitOnChar] at h
    split at h
    · rename_i hx
      match n with
      | 0 => simp at h; subst h; simp [containsChar]
      | n + 1 => simp only [List.getElem?_cons_succ] at h; exact ih n t h
    · rename_i hx
      rcases hy : splitOnChar c xs with _ | ⟨y, ys⟩
      · exact absurd hy (splitOnChar_ne_nil c xs)
      · rw [hy] at h
        match n with
        | 0 =>
          simp at h; subst h
          have hyfree : containsChar c y = false := ih 0 y (by rw [hy]; simp)
          simp [containsChar, if_neg hx, hyfree]
        | n + 1 =>
          simp only [List.getElem?_cons_succ] at h
          exact ih (n + 1) t (by rw [hy]; simpa using h)

/-- Tokens of `splitOnChar` contain no character that the input did not
contain. -/
theorem splitOnChar_token_of_not_contains (c ch : Char) (l : Str)
    (hl : containsChar ch l = false) :
    ∀ (n : Nat) (t : Str), (splitOnChar c l)[n]? = some t → containsChar ch t = false := by
  induction l with
  | nil =>
    intro n t h
    simp only [splitOnChar] at h
    match n with
    | 0 => simp at h; subst h; simp [containsChar]
    | n + 1 => simp at h
  | cons x xs ih =>
    intro n t h
    simp only [containsChar] at hl
    split at hl
    · exact absurd hl (by simp)
    · rename_i hxch
      simp only [splitOnChar] at h
      split at h
      · match n with
        | 0 => simp at h; subst h; simp [containsChar]
        | n + 1 => simp only [List.getElem?_cons_succ] at h; exact ih hl n t h
      · rcases hy : splitOnChar c xs with _ | ⟨y, ys⟩
        · exact absurd hy (splitOnChar_ne_nil c xs)
        · rw [hy] at h
          match n with
          | 0 =>
            simp at h; subst h
            have hyfree : containsChar ch y = false := ih hl 0 y (by rw [hy]; simp)
            simp [containsChar, if_neg hxch, hyfree]
          | n + 1 =>
            simp only [List.getElem?_cons_succ] at h
            exact ih hl (n + 1) t (by rw [hy]; simpa using h)

/-- A separator-free prefix of the input is a prefix of the first token. -/
theorem isPrefixOf_splitOnChar_head (p : Str) (c : Char) :
    ∀ l name rest, p.isPrefixOf l = true → (∀ a ∈ p, a ≠ c) →
      splitOnChar c l = name :: rest → p.isPrefixOf name = true := by
  induction p with
  | nil => intro l name rest _ _ _; simp [List.isPrefixOf]
  | cons a p ih =>
    intro l name rest hp hc hsplit
    match l with
    | [] => simp [List.isPrefixOf] at hp
    | b :: l' =>
      simp only [List.isPrefixOf, Bool.and_eq_true, beq_iff_eq] at hp
      obtain ⟨hab, hpl⟩ := hp
      subst hab
      have hac : a ≠ c := hc a (by simp)
      simp only [splitOnChar, if_neg hac] at hsplit
      rcases hy : splitOnChar c l' with _ | ⟨y, ys⟩
      · exact absurd hy (splitOnChar_ne_nil c l')
      · rw [hy] at hsplit
        simp only [List.cons.injEq] at hsplit
        obtain ⟨hname, _⟩ := hsplit
        subst hname
        have hpy : p.isPrefixOf y = true :=
          ih l' y ys hpl (fun x hx => hc x (List.mem_cons_of_mem _ hx)) hy
        simp [List.isPrefixOf, hpy]

theorem splitOnCRLF_ne_nil (l : Str) : splitOnCRLF l ≠ [] := by
  match l with
  | [] => simp [splitOnCRLF]
  | [c] => simp [splitOnCRLF]
  | a :: b :: rest =>
    simp only [splitOnCRLF]
    split
    · simp
    · split
      · simp
      · simp

theorem containsCRLF_of_not_cr (l : Str) (h : containsChar '\r' l = false) :
    containsCRLF l = false := by
  induction l with
  | nil => simp [containsCRLF]
  | cons a l ih =>
    simp only [containsChar] at h
    split at h
    · exact absurd h (by simp)
    · rename_i ha
      match l with
      | [] => simp [containsCRLF]
      | b :: rest =>
        simp only [containsCRLF, Bool.or_eq_false_iff]
        exact ⟨by simp [ha], ih h⟩

theorem containsCRLF_of_not_lf (l : Str) (h : containsChar '\n' l = false) :
    containsCRLF l = false := by
  induction l with
  | nil => simp [containsCRLF]
  | cons a l ih =>
    simp only [containsChar] at h
    split at h
    · exact absurd h (by simp)
    · rename_i ha
      match l with
      | [] => simp [containsCRLF]
      | b :: rest =>
        have hb : b ≠ '\n' := by
          simp only [containsChar] at h
          intro hbe
          rw [if_pos hbe] at h
          exact absurd h (by simp)
        simp only [containsCRLF, Bool.or_eq_false_iff]
        exact ⟨by simp [hb], ih h⟩

theorem containsCRLF_append_crlf (xs ys : Str) :
    containsCRLF (xs ++ '\r' :: '\n' :: ys) = true := by
  induction xs with
  | nil => simp [containsCRLF]
  | cons a xs ih =>
    match xs with
    | [] => simp [containsCRLF]
    | b :: rest =>
      simp only [List.cons_append, containsCRLF, Bool.or_eq_true]
      right
      exact ih

theorem splitOnCRLF_of_not_contains (l : Str) (h : containsCRLF l = false) :
    splitOnCRLF l = [l] := by
  induction l with
  | nil => simp [splitOnCRLF]
  | cons a l ih =>
    match l with
    | [] => simp [splitOnCRLF]
    | b :: rest =>
      simp only [containsCRLF, Bool.or_eq_false_iff] at h
      obtain ⟨h1, h2⟩ := h
      simp only [splitOnCRLF, h1, Bool.false_eq_true, if_false]
      rw [ih h2]

theorem splitOnCRLF_append (xs ys : Str) (h : containsCRLF xs = false) :
    splitOnCRLF (xs ++ '\r' :: '\n' :: ys) = xs :: splitOnCRLF ys := by
  induction xs with
  | nil => simp [splitOnCRLF]
  | cons a xs ih =>
    match xs with
    | [] =>
      show splitOnCRLF (a :: '\r' :: '\n' :: ys) = [a] :: splitOnCRLF ys
      simp [splitOnCRLF]
    | b :: rest =>
      simp only [containsCRLF, Bool.or_eq_false_iff] at h
      obtain ⟨h1, h2⟩ := h
      have ih' := ih h2
      rw [List.cons_append] at ih'
      show splitOnCRLF (a :: (b :: (rest ++ '\r' :: '\n' :: ys))) =
        (a :: b :: rest) :: splitOnCRLF ys
      simp only [splitOnCRLF, h1, Bool.false_eq_true, if_false]
      rw [ih']

/-! ## Lemmas about `joinWith` -/

theorem containsChar_joinWith (c : Char) (sep : Str) (segs : List Str)
    (hsep : containsChar c sep = false)
    (h : ∀ s ∈ segs, containsChar c s = false) :
    containsChar c (joinWith sep segs) = false := by
  induction segs with
  | nil => simp [joinWith, containsChar]
  | cons s segs ih =>
    match segs with
    | [] => exact h s (by simp)
    | s' :: rest =>
      show containsChar c (s ++ sep ++ joinWith sep (s' :: rest)) = false
      rw [containsChar_append, containsChar_append]
      simp only [Bool.or_eq_false_iff]
      exact ⟨⟨h s (by simp), hsep⟩, ih (fun x hx => h x (List.mem_cons_of_mem _ hx))⟩

theorem splitOnChar_joinWith (c : Char) (segs : List Str) (hne : segs ≠ [])
    (h : ∀ s ∈ segs, containsChar c s = false) :
    splitOnChar c (joinWith [c] segs) = segs := by
  induction segs with
  | nil => exact absurd rfl hne
  | cons s segs ih =>
    match segs with
    | [] =>
      show splitOnChar c s = [s]
      exact splitOnChar_of_not_contains c s (h s (by simp))
    | s' :: rest =>
      show splitOnChar c (s ++ [c] ++ joinWith [c] (s' :: rest)) = s :: s' :: rest
      rw [List.append_assoc, List.singleton_append,
        splitOnChar_append_cons c s _ (h s (by simp)),
        ih (by simp) (fun x hx => h x (List.mem_cons_of_mem _ hx))]

theorem splitOnCRLF_joinWith (segs : List Str) (hne : segs ≠ [])
    (h : ∀ s ∈ segs, containsChar '\r' s = false) :
    splitOnCRLF (joinWith ['\r', '\n'] segs) = segs := by
  induction segs with
  | nil => exact absurd rfl hne
  | cons s segs ih =>
    match segs with
    | [] =>
      show splitOnCRLF s = [s]
      exact splitOnCRLF_of_not_contains s (containsCRLF_of_not_cr s (h s (by simp)))
    | s' :: rest =>
      show splitOnCRLF (s ++ ['\r', '\n'] ++ joinWith ['\r', '\n'] (s' :: rest)) =
        s :: s' :: rest
      rw [List.append_assoc]
      show splitOnCRLF (s ++ '\r' :: '\n' :: joinWith ['\r', '\n'] (s' :: rest)) =
        s :: s' :: rest
      rw [splitOnCRLF_append _ _ (containsCRLF_of_not_cr s (h s (by simp))),
        ih (by simp) (fun x hx => h x (List.mem_cons_of_mem _ hx))]

/-! ## Lemmas about the MLLP byte-level search functions -/

theorem findEndSeq_cons_ne (a : Nat) (l : List Nat) (h : a ≠ MLLP_END_BLOCK) :
    findEndSeq (a :: l) = (findEndSeq l).map (· + 1) := by
  match l with
  | [] => simp [findEndSeq]
  | b :: rest =>
    simp only [findEndSeq]
    rw [if_neg (by intro hc; exact h hc.1)]

theorem findEndSeq_append_end (P : List Nat) (h : findEndSeq P = none) :
    findEndSeq (P ++ [MLLP_END_BLOCK, MLLP_CARRIAGE_RETURN]) = some P.length := by
  induction P with
  | nil => simp [findEndSeq, MLLP_END_BLOCK, MLLP_CARRIAGE_RETURN]
  | cons a P ih =>
    match P with
    | [] =>
      show findEndSeq [a, MLLP_END_BLOCK, MLLP_CARRIAGE_RETURN] = some 1
      simp only [findEndSeq]
      rw [if_neg (by simp [MLLP_END_BLOCK, MLLP_CARRIAGE_RETURN])]
      simp [MLLP_END_BLOCK, MLLP_CARRIAGE_RETURN]
    | b :: P' =>
      simp only [findEndSeq] at h
      split at h
      · exact absurd h (by simp)
      · rename_i hcond
        have hrec : findEndSeq (b :: P') = none := by
          rcases he : findEndSeq (b :: P') with _ | e
          · rfl
          · rw [he] at h; exact absurd h (by simp)
        have ih' := ih hrec
        rw [List.cons_append] at ih'
        show findEndSeq
            ((a :: b :: P') ++ [MLLP_END_BLOCK, MLLP_CARRIAGE_RETURN]) =
          some (a :: b :: P').length
        simp only [List.cons_append, List.length_cons]
        simp only [findEndSeq, if_neg hcond]
        rw [ih']
        rfl

theorem findEndSeq_none_of_no_end_block (l : List Nat)
    (h : ∀ x ∈ l, x ≠ MLLP_END_BLOCK) : findEndSeq l = none := by
  induction l with
  | nil => rfl
  | cons a l ih =>
    match l with
    | [] => rfl
    | b :: rest =>
      simp only [findEndSeq]
      rw [if_neg (by intro hc; exact h a (by simp) hc.1)]
      rw [ih (fun x hx => h x (List.mem_cons_of_mem _ hx))]
      rfl

/-- `findEndSeq` returns the index of the FIRST end-sequence window: no
earlier index carries the window. -/
theorem findEndSeq_first (l : List Nat) :
    ∀ (e : Nat), findEndSeq l = some e → ∀ (m : Nat), m < e →
      ¬(l[m]? = some MLLP_END_BLOCK ∧ l[m + 1]? = some MLLP_CARRIAGE_RETURN) := by
  induction l with
  | nil => intro e he; simp [findEndSeq] at he
  | cons a l ih =>
    intro e he m hm
    match l with
    | [] => simp [findEndSeq] at he
    | b :: rest =>
      simp only [findEndSeq] at he
      split at he
      · rename_i hcond
        simp only [Option.some.injEq] at he
        omega
      · rename_i hcond
        rcases he' : findEndSeq (b :: rest) with _ | e'
        · rw [he'] at he; simp at he
        · rw [he'] at he
          simp only [Option.map_some', Option.some.injEq] at he
          subst he
          match m with
          | 0 =>
            intro hwin
            simp only [List.getElem?_cons_zero, Option.some.injEq,
              List.getElem?_cons_succ] at hwin
            exact hcond hwin
          | m + 1 =>
            intro hwin
            refine ih e' he' m (by omega) ⟨?_, ?_⟩
            · simpa using hwin.1
            · simpa using hwin.2

theorem findStartBlock_cons_ne (b : Nat) (rest : List Nat)
    (h : b ≠ MLLP_START_BLOCK) :
    findStartBlock (b :: rest) = (findStartBlock rest).map (· + 1) := by
  simp [findStartBlock, h]

theorem findStartBlock_cons_vt (rest : List Nat) :
    findStartBlock (MLLP_START_BLOCK :: rest) = some 0 := by
  simp [findStartBlock]

/-- Characterization of a "more data needed" decode outcome. -/
theorem decode_eq_needMore (src : List Nat) (i : Nat)
    (hfs : findStartBlock src = some i)
    (hend : findEndSeq (src.drop i) = none)
    (hlen : ¬(src.drop i).length > 100000) :
    MllpCodec.decode src = (DecodeResult.needMore, src.drop i) := by
  simp only [MllpCodec.decode, hfs, hend, if_neg hlen]

/-! ## Claim C4: MLLP encode-then-decode round trip -/

/-- C4: for every byte sequence `P` that does not contain the two-byte
window FS+CR, running the MLLP decoder on a buffer holding exactly
`encode(P) = VT || P || FS || CR` yields the payload `P` (and an empty
remaining buffer). -/
theorem C4_mllp_roundtrip (P : List Nat) (h : findEndSeq P = none) :
    MllpCodec.decode (MllpCodec.encode P []) = (DecodeResult.payload P, []) := by
  have henc : MllpCodec.encode P [] =
      MLLP_START_BLOCK :: (P ++ [MLLP_END_BLOCK, MLLP_CARRIAGE_RETURN]) := by
    simp [MllpCodec.encode]
  rw [henc]
  have hfs : findStartBlock
      (MLLP_START_BLOCK :: (P ++ [MLLP_END_BLOCK, MLLP_CARRIAGE_RETURN])) = some 0 := by
    simp [findStartBlock]
  have hvt : MLLP_START_BLOCK ≠ MLLP_END_BLOCK := by decide
  have hend : findEndSeq
      (MLLP_START_BLOCK :: (P ++ [MLLP_END_BLOCK, MLLP_CARRIAGE_RETURN])) =
      some (P.length + 1) := by
    rw [findEndSeq_cons_ne _ _ hvt, findEndSeq_append_end P h]
    rfl
  simp only [MllpCodec.decode, hfs, List.drop_zero, hend]
  have harith : P.length + 1 + 2 - 1 - 2 = P.length := by omega
  rw [harith, Prod.mk.injEq]
  constructor
  · show DecodeResult.payload
        (((MLLP_START_BLOCK :: (P ++ [MLLP_END_BLOCK, MLLP_CARRIAGE_RETURN])).drop 1).take
          P.length) = DecodeResult.payload P
    rw [List.drop_succ_cons, List.drop_zero, List.take_left]
  · show (MLLP_START_BLOCK :: (P ++ [MLLP_END_BLOCK, MLLP_CARRIAGE_RETURN])).drop
        (P.length + 1 + 2) = []
    rw [List.drop_succ_cons]
    exact List.drop_eq_nil_of_le (by simp)

/-- Witness for C4 at the concrete payload `[77, 83, 72]` (`MSH`). -/
theorem C4_witness :
    findEndSeq [77, 83, 72] = none ∧
      MllpCodec.decode (MllpCodec.encode [77, 83, 72] []) =
        (DecodeResult.payload [77, 83, 72], []) :=
  ⟨by decide, C4_mllp_roundtrip [77, 83, 72] (by decide)⟩

/-! ## Claim C6: the 100 000-byte bound (checked after noise discard) -/

/-- C6 (amended): when the decoder finds no completed frame, the
100 000-byte bound is checked against the buffer AFTER the bytes before
the first VT have been discarded (the whole buffer when no VT is
present): it fails with the invalid-frame error exactly when that
post-discard buffer exceeds 100 000 bytes, and returns "more data
needed" otherwise. -/
theorem C6_bound_after_discard (src : List Nat)
    (h : ∀ p : List Nat, (MllpCodec.decode src).1 ≠ DecodeResult.payload p) :
    (MllpCodec.decode src).2 = dropToVT src ∧
      (MllpCodec.decode src).1 =
        (if (dropToVT src).length > 100000 then DecodeResult.invalidFrame
         else DecodeResult.needMore) := by
  rcases hfs : findStartBlock src with _ | i
  · simp only [MllpCodec.decode, dropToVT, hfs]
    constructor
    · split <;> rfl
    · split <;> rfl
  · rcases hend : findEndSeq (src.drop i) with _ | e
    · simp only [MllpCodec.decode, dropToVT, hfs, hend]
      constructor
      · split <;> rfl
      · split <;> rfl
    · exfalso
      refine h (((src.drop i).drop 1).take (e + 2 - 1 - 2)) ?_
      simp only [MllpCodec.decode, hfs, hend]

/-- Witness for C6 at the concrete frameless buffer `[0, 0]`. -/
theorem C6_witness :
    (∀ p : List Nat, (MllpCodec.decode [0, 0]).1 ≠ DecodeResult.payload p) ∧
      ((MllpCodec.decode [0, 0]).2 = dropToVT [0, 0] ∧
        (MllpCodec.decode [0, 0]).1 =
          (if (dropToVT [0, 0]).length > 100000 then DecodeResult.invalidFrame
           else DecodeResult.needMore)) := by
  have hp : ∀ p : List Nat, (MllpCodec.decode [0, 0]).1 ≠ DecodeResult.payload p := by
    have hd : (MllpCodec.decode [0, 0]).1 = DecodeResult.needMore := by decide
    intro p hcontra
    rw [hd] at hcontra
    exact DecodeResult.noConfusion hcontra
  exact ⟨hp, C6_bound_after_discard [0, 0] hp⟩

/-- C6 counterexample: a 100 001-byte buffer with one noise byte before
the VT and no completed frame.  The claim demands the invalid-frame
error, but the decoder discards the noise byte first, the remaining
100 000 bytes do not exceed the bound, and it returns "more data
needed". -/
theorem C6_counterexample :
    (0 :: MLLP_START_BLOCK :: List.replicate 99999 0).length > 100000 ∧
      (∀ p : List Nat,
        (MllpCodec.decode (0 :: MLLP_START_BLOCK :: List.replicate 99999 0)).1 ≠
          DecodeResult.payload p) ∧
      (MllpCodec.decode (0 :: MLLP_START_BLOCK :: List.replicate 99999 0)).1 =
        DecodeResult.needMore := by
  have hfs : findStartBlock (0 :: MLLP_START_BLOCK :: List.replicate 99999 0) = some 1 := by
    rw [findStartBlock_cons_ne _ _ (by decide), findStartBlock_cons_vt]
    rfl
  have hdrop : (0 :: MLLP_START_BLOCK :: List.replicate 99999 0).drop 1 =
      MLLP_START_BLOCK :: List.replicate 99999 0 := rfl
  have hend : findEndSeq ((0 :: MLLP_START_BLOCK :: List.replicate 99999 0).drop 1) = none := by
    rw [hdrop]
    apply findEndSeq_none_of_no_end_block
    intro x hx
    rcases List.mem_cons.mp hx with h1 | h1
    · subst h1; decide
    · rw [List.eq_of_mem_replicate h1]; decide
  have hlen : ¬((0 :: MLLP_START_BLOCK :: List.replicate 99999 0).drop 1).length > 100000 := by
    rw [hdrop, List.length_cons, List.length_replicate]
    omega
  have hdec : MllpCodec.decode (0 :: MLLP_START_BLOCK :: List.replicate 99999 0) =
      (DecodeResult.needMore, (0 :: MLLP_START_BLOCK :: List.replicate 99999 0).drop 1) :=
    decode_eq_needMore _ 1 hfs hend hlen
  refine ⟨?_, ?_, ?_⟩
  · rw [List.length_cons, List.length_cons, List.length_replicate]
    omega
  · intro p hcontra
    rw [hdec] at hcontra
    exact DecodeResult.noConfusion hcontra
  · rw [hdec]

/-! ## Claim C9: shape of decoded MLLP payloads -/

/-- C9 (amended): a payload emitted by the MLLP decoder never ends with
the two-byte sequence FS+CR (the frame terminator is the FIRST such
window, so it cannot also occur at the end of the extracted content).
The payload may, however, begin with VT or end with a lone FS. -/
theorem C9_no_fscr_suffix (src p buf : List Nat)
    (h : MllpCodec.decode src = (DecodeResult.payload p, buf)) :
    ¬∃ q : List Nat, p = q ++ [MLLP_END_BLOCK, MLLP_CARRIAGE_RETURN] := by
  rintro ⟨q, rfl⟩
  rcases hfs : findStartBlock src with _ | i
  · simp only [MllpCodec.decode, hfs] at h
    split at h <;> simp at h
  · rcases hend : findEndSeq (src.drop i) with _ | e
    · simp only [MllpCodec.decode, hfs, hend] at h
      split at h <;> simp at h
    · simp only [MllpCodec.decode, hfs, hend, Prod.mk.injEq,
        DecodeResult.payload.injEq] at h
      obtain ⟨hpay, _⟩ := h
      have h1 : (q ++ [MLLP_END_BLOCK, MLLP_CARRIAGE_RETURN])[q.length]? =
          some MLLP_END_BLOCK := by
        rw [List.getElem?_append_right (le_refl _)]
        simp
      have h2 : (q ++ [MLLP_END_BLOCK, MLLP_CARRIAGE_RETURN])[q.length + 1]? =
          some MLLP_CARRIAGE_RETURN := by
        rw [List.getElem?_append_right (by omega)]
        simp
      rw [← hpay] at h1 h2
      rw [List.getElem?_take] at h1 h2
      split at h1
      · split at h2
        · rename_i hlt1 hlt2
          rw [List.getElem?_drop] at h1 h2
          refine findEndSeq_first (src.drop i) e hend (1 + q.length) (by omega) ⟨h1, ?_⟩
          rw [show 1 + q.length + 1 = 1 + (q.length + 1) by omega]
          exact h2
        · exact Option.noConfusion h2
      · exact Option.noConfusion h1

/-- Witness for C9 at the concrete buffer `[VT, 65, FS, CR]`, whose
decoded payload is `[65]`. -/
theorem C9_witness :
    ¬∃ q : List Nat, [65] = q ++ [MLLP_END_BLOCK, MLLP_CARRIAGE_RETURN] :=
  C9_no_fscr_suffix [MLLP_START_BLOCK, 65, MLLP_END_BLOCK, MLLP_CARRIAGE_RETURN] [65] []
    (by decide)

/-- C9 counterexample: decoding the buffer `[VT, VT, FS, FS, CR]` emits
the payload `[VT, FS]`, whose first byte IS VT and whose last byte IS
FS — contradicting the claim that decoded payloads never start with VT
or end with FS. -/
theorem C9_counterexample :
    MllpCodec.decode [MLLP_START_BLOCK, MLLP_START_BLOCK, MLLP_END_BLOCK, MLLP_END_BLOCK,
        MLLP_CARRIAGE_RETURN] =
      (DecodeResult.payload [MLLP_START_BLOCK, MLLP_END_BLOCK], []) ∧
      [MLLP_START_BLOCK, MLLP_END_BLOCK].head? = some MLLP_START_BLOCK ∧
      [MLLP_START_BLOCK, MLLP_END_BLOCK].getLast? = some MLLP_END_BLOCK := by
  decide

/-! ## Lemmas about the parser's structure -/

theorem collectSegments_cons (d : Delimiters) (s : Str) (rest : List Str)
    (parsed : List Segment) (h : collectSegments d (s :: rest) = .ok parsed) :
    ∃ seg segs, parse_segment s d = .ok seg ∧ collectSegments d rest = .ok segs ∧
      parsed = seg :: segs := by
  simp only [collectSegments] at h
  split at h
  · exact Except.noConfusion h
  · rename_i seg hseg
    split at h
    · exact Except.noConfusion h
    · rename_i segs hsegs
      simp only [Except.ok.injEq] at h
      exact ⟨seg, segs, hseg, hsegs, h.symm⟩

theorem parse_segment_ok (input : Str) (d : Delimiters) :
    ∃ name rest, splitOnChar d.field input = name :: rest ∧
      parse_segment input d = .ok { name := name, fields := rest.map (parse_field · d) } := by
  rcases hs : splitOnChar d.field input with _ | ⟨name, rest⟩
  · exact absurd hs (splitOnChar_ne_nil _ _)
  · exact ⟨name, rest, rfl, by simp [parse_segment, hs]⟩

/-- Full characterization of a successful `parseFrom` run. -/
theorem parseFrom_ok (segs : List Str) (m : Message) (h : parseFrom segs = .ok m) :
    ∃ s₀ rest seg segs', segs = s₀ :: rest ∧
      "MSH".toList.isPrefixOf s₀ = true ∧
      parse_segment s₀ Delimiters.default = .ok seg ∧
      m.segments = seg :: segs' ∧
      (m.message_type = "ADT^A01".toList ∨ m.message_type = "ORU^R01".toList ∨
        m.message_type = "RDE^O11".toList ∨ m.message_type = "UNKNOWN".toList) ∧
      m.version = "2.5".toList := by
  match segs with
  | [] => simp [parseFrom] at h
  | s₀ :: rest =>
    simp only [parseFrom, List.isEmpty_cons, Bool.false_eq_true, if_false,
      List.head?_cons] at h
    split at h
    · rename_i hpre
      rcases hc : collectSegments Delimiters.default (s₀ :: rest) with e | parsed
      · rw [hc] at h; exact ParseResult.noConfusion h
      · rw [hc] at h
        obtain ⟨seg, segs', hseg, _, hp⟩ := collectSegments_cons _ _ _ _ hc
        subst hp
        simp only [extract_message_type, extract_version] at h
        rw [ParseResult.ok.injEq] at h
        obtain ⟨hsegsEq, hmtEq, hverEq⟩ :
            m.segments = seg :: segs' ∧
              m.message_type =
                (if seg.fields.any (fun f =>
                    f.components.any (fun c => c.value = "ADT".toList)) then
                  "ADT^A01".toList
                else if seg.fields.any (fun f =>
                    f.components.any (fun c => c.value = "ORU".toList)) then
                  "ORU^R01".toList
                else if seg.fields.any (fun f =>
                    f.components.any (fun c => c.value = "RDE".toList)) then
                  "RDE^O11".toList
                else "UNKNOWN".toList) ∧
              m.version = "2.5".toList := by
          rw [← h]
          exact ⟨rfl, rfl, rfl⟩
        refine ⟨s₀, rest, seg, segs', rfl, hpre, hseg, hsegsEq, ?_, hverEq⟩
        rw [hmtEq]
        split
        · exact Or.inl rfl
        · split
          · exact Or.inr (Or.inl rfl)
          · split
            · exact Or.inr (Or.inr (Or.inl rfl))
            · exact Or.inr (Or.inr (Or.inr rfl))
    · exact ParseResult.noConfusion h

/-- `parseFrom` on a non-empty raw segment list never reaches the
out-of-bounds marker. -/
theorem parseFrom_ne_panic (segs : List Str) (hne : segs ≠ []) :
    (parseFrom segs).isPanic = false := by
  match segs with
  | s :: rest =>
    simp only [parseFrom, List.isEmpty_cons, Bool.false_eq_true, if_false,
      List.head?_cons]
    split
    · rcases hc : collectSegments Delimiters.default (s :: rest) with e | parsed
      · rfl
      · obtain ⟨seg, segs', _, _, hp⟩ := collectSegments_cons _ _ _ _ hc
        subst hp
        simp only [extract_message_type, extract_version]
        rfl
    · rfl

/-! ## Claim C10: totality of `Message::parse` -/

/-- C10: `Message::parse` is total — for every input it returns `Ok` or an
`HL7Error`, never reaching the out-of-bounds index `&parsed_segments[0]`:
splitting any string yields at least one piece, so the parsed segment list
is never empty. -/
theorem C10_parse_total (input : Str) : (Message.parse input).isPanic = false := by
  unfold Message.parse
  apply parseFrom_ne_panic
  split
  · exact splitOnCRLF_ne_nil input
  · exact splitOnChar_ne_nil '\n' input

/-! ## Claim C5: invariants of parsed messages -/

/-- C5 (amended): for every `Message` returned by `Message::parse`, the
segment list is non-empty, the FIRST segment's name BEGINS WITH `MSH`
(the parser checks `starts_with("MSH")`, so e.g. a first segment `MSHX`
is accepted with name `MSHX`), `message_type` is non-empty (it is one of
the four whitelist values) and `version` is non-empty (always `2.5`). -/
theorem C5_parse_invariants (input : Str) (m : Message)
    (h : Message.parse input = ParseResult.ok m) :
    m.segments ≠ [] ∧ headStartsWithMSH m = true ∧
      m.message_type ≠ [] ∧ m.version ≠ [] := by
  unfold Message.parse at h
  obtain ⟨s₀, rest, seg, segs', _, hpre, hseg, hsegsEq, hmt, hver⟩ := parseFrom_ok _ m h
  obtain ⟨name, rest', hsplit, hok⟩ := parse_segment_ok s₀ Delimiters.default
  rw [hseg] at hok
  have hsegEq : seg = { name := name, fields := rest'.map (parse_field · Delimiters.default) } := by
    rw [Except.ok.injEq] at hok
    exact hok
  have hname : "MSH".toList.isPrefixOf seg.name = true := by
    rw [hsegEq]
    exact isPrefixOf_splitOnChar_head "MSH".toList '|' s₀ name rest' hpre
      (by decide) hsplit
  refine ⟨by rw [hsegsEq]; simp, ?_, ?_, by rw [hver]; decide⟩
  · rw [headStartsWithMSH, hsegsEq]
    simpa using hname
  · rcases hmt with h1 | h1 | h1 | h1 <;> rw [h1] <;> decide

/-- Witness for C5 at the concrete input `MSH|x`. -/
theorem C5_witness :
    ({ segments := [{ name := "MSH".toList, fields := [{ components := [{ value := "x".toList, subcomponents := [] }] }] }], message_type := "UNKNOWN".toList, version := "2.5".toList } : Message).segments ≠ [] ∧
      headStartsWithMSH ({ segments := [{ name := "MSH".toList, fields := [{ components := [{ value := "x".toList, subcomponents := [] }] }] }], message_type := "UNKNOWN".toList, version := "2.5".toList } : Message) = true ∧
      ({ segments := [{ name := "MSH".toList, fields := [{ components := [{ value := "x".toList, subcomponents := [] }] }] }], message_type := "UNKNOWN".toList, version := "2.5".toList } : Message).message_type ≠ [] ∧
      ({ segments := [{ name := "MSH".toList, fields := [{ components := [{ value := "x".toList, subcomponents := [] }] }] }], message_type := "UNKNOWN".toList, version := "2.5".toList } : Message).version ≠ [] :=
  C5_parse_invariants "MSH|x".toList ({ segments := [{ name := "MSH".toList, fields := [{ components := [{ value := "x".toList, subcomponents := [] }] }] }], message_type := "UNKNOWN".toList, version := "2.5".toList } : Message) (by decide)

/-- C5 counterexample: the input `MSHX` is accepted (the parser only
checks `starts_with("MSH")`), and the resulting first segment's name is
`MSHX`, not exactly `MSH` as the claim states. -/
theorem C5_counterexample :
    Message.parse "MSHX".toList = ParseResult.ok { segments := [{ name := "MSHX".toList, fields := [] }], message_type := "UNKNOWN".toList, version := "2.5".toList } ∧ "MSHX".toList ≠ "MSH".toList := by
  decide

/-! ## Claim C3: CR vs LF segment separators -/

/-- C3 counterexample: the payload `MSH|a\rPID|1`, whose two segments are
separated by a bare CR, parses to a ONE-segment message (the parser never
splits on a bare CR: it splits on `\r\n` when present, otherwise on
`\n`), while the same payload with LF parses to a two-segment message —
the two results differ. -/
theorem C3_counterexample :
    Message.parse ('M' :: 'S' :: 'H' :: '|' :: 'a' :: '\r' :: 'P' :: 'I' :: 'D' :: '|' :: ['1']) ≠
      Message.parse ('M' :: 'S' :: 'H' :: '|' :: 'a' :: '\n' :: 'P' :: 'I' :: 'D' :: '|' :: ['1']) ∧
      (match Message.parse
          ('M' :: 'S' :: 'H' :: '|' :: 'a' :: '\r' :: 'P' :: 'I' :: 'D' :: '|' :: ['1']) with
        | ParseResult.ok m => some m.segments.length
        | _ => none) = some 1 ∧
      (match Message.parse
          ('M' :: 'S' :: 'H' :: '|' :: 'a' :: '\n' :: 'P' :: 'I' :: 'D' :: '|' :: ['1']) with
        | ParseResult.ok m => some m.segments.length
        | _ => none) = some 2 := by
  decide

/-- C3 (amended): the separator equivalence the parser actually provides
is between CRLF and LF — for any non-empty list of segment strings that
contain neither CR nor LF, joining them with `\r\n` and joining them with
`\n` parse to equal Messages.  (A bare CR is never treated as a segment
separator: the parser selects `\r\n` when the payload contains `\r\n`,
otherwise `\n`.) -/
theorem C3_crlf_lf_equivalence (segs : List Str) (hne : segs ≠ [])
    (h : ∀ s ∈ segs, containsChar '\r' s = false ∧ containsChar '\n' s = false) :
    Message.parse (joinWith ['\r', '\n'] segs) = Message.parse (joinWith ['\n'] segs) := by
  rcases segs with _ | ⟨s, rest0⟩
  · exact absurd rfl hne
  rcases rest0 with _ | ⟨s', rest⟩
  · rfl
  have hcr : ∀ x ∈ s :: s' :: rest, containsChar '\r' x = false := fun x hx => (h x hx).1
  have hlf : ∀ x ∈ s :: s' :: rest, containsChar '\n' x = false := fun x hx => (h x hx).2
  have hB : Message.parse (joinWith ['\n'] (s :: s' :: rest)) =
      parseFrom (s :: s' :: rest) := by
    unfold Message.parse
    have hnocr : containsChar '\r' (joinWith ['\n'] (s :: s' :: rest)) = false :=
      containsChar_joinWith '\r' ['\n'] _ (by decide) hcr
    rw [if_neg (by rw [containsCRLF_of_not_cr _ hnocr]; simp),
      splitOnChar_joinWith '\n' _ (by simp) hlf]
  rw [hB]
  unfold Message.parse
  have hj : joinWith ['\r', '\n'] (s :: s' :: rest) =
      s ++ '\r' :: '\n' :: joinWith ['\r', '\n'] (s' :: rest) := by
    show s ++ ['\r', '\n'] ++ joinWith ['\r', '\n'] (s' :: rest) = _
    rw [List.append_assoc]
    rfl
  rw [hj, if_pos (containsCRLF_append_crlf _ _),
    splitOnCRLF_append _ _ (containsCRLF_of_not_cr s (hcr s (by simp))),
    splitOnCRLF_joinWith (s' :: rest) (by simp)
      (fun x hx => hcr x (List.mem_cons_of_mem _ hx))]

/-- Witness for C3 at the concrete segment list `[MSH|x, PID|1]`. -/
theorem C3_witness :
    ((["MSH|x".toList, "PID|1".toList] : List Str) ≠ [] ∧
      (∀ s ∈ (["MSH|x".toList, "PID|1".toList] : List Str),
        containsChar '\r' s = false ∧ containsChar '\n' s = false)) ∧
      Message.parse (joinWith ['\r', '\n'] ["MSH|x".toList, "PID|1".toList]) =
        Message.parse (joinWith ['\n'] ["MSH|x".toList, "PID|1".toList]) :=
  ⟨⟨by decide, by decide⟩,
    C3_crlf_lf_equivalence ["MSH|x".toList, "PID|1".toList] (by decide) (by decide)⟩

/-! ## Lemmas about the NACK control id -/

theorem splitOnChar_cons_self (c : Char) (ys : Str) :
    splitOnChar c (c :: ys) = [] :: splitOnChar c ys := by
  simp [splitOnChar]

theorem containsChar_stripTrailingCR (c : Char) (l : Str)
    (h : containsChar c l = false) :
    containsChar c (stripTrailingCR l) = false := by
  unfold stripTrailingCR
  split
  · rw [containsChar_eq_false_iff] at h ⊢
    intro a ha
    exact h a ((List.dropLast_sublist l).subset ha)
  · exact h

theorem firstLine_no_lf (s line : Str) (h : firstLine s = some line) :
    containsChar '\n' line = false := by
  match s with
  | [] => exact Option.noConfusion h
  | a :: s' =>
    simp only [firstLine, Option.some.injEq] at h
    subst h
    apply containsChar_stripTrailingCR
    rw [containsChar_eq_false_iff]
    intro x hx
    have := List.mem_takeWhile_imp hx
    simpa using this

theorem extract_control_id_no_pipe (original : Str) :
    containsChar '|' (extract_control_id original) = false := by
  unfold extract_control_id
  rcases hfl : firstLine original with _ | line
  · decide
  · show containsChar '|' (((splitOnChar '|' line)[9]?).getD "UNKNOWN".toList) = false
    rcases hg : (splitOnChar '|' line)[9]? with _ | t
    · rw [Option.getD_none]; decide
    · rw [Option.getD_some]
      exact splitOnChar_token_not_contains '|' line 9 t hg

theorem extract_control_id_no_lf (original : Str) :
    containsChar '\n' (extract_control_id original) = false := by
  unfold extract_control_id
  rcases hfl : firstLine original with _ | line
  · decide
  · have hline : containsChar '\n' line = false := firstLine_no_lf original line hfl
    show containsChar '\n' (((splitOnChar '|' line)[9]?).getD "UNKNOWN".toList) = false
    rcases hg : (splitOnChar '|' line)[9]? with _ | t
    · rw [Option.getD_none]; decide
    · rw [Option.getD_some]
      exact splitOnChar_token_of_not_contains '|' '\n' line hline 9 t hg

/-! ## Claim C7: the control id in error acknowledgments -/

/-- C7: for every error acknowledgment generated by `generate_nack`, the
control id — the token `extract_control_id original`, i.e. the 10th
pipe-delimited token (index 9) of the original payload's first line, or
`UNKNOWN` when it cannot be extracted — appears as MSH-10 (the token at
index 9 of the ACK's first `\r\n`-line split on `|`) and as MSA-2 (the
token at index 2 of the MSA segment), and the second segment has exactly
the form `MSA|AE|{CTRL}|Error processing message: {REASON}`.  The
timestamp argument is assumed pipe-free and LF-free (the code formats it
as `YYYYMMDDHHMMSS`). -/
theorem C7_nack_control_id (original err now : Str)
    (h1 : containsChar '|' now = false) (h2 : containsChar '\n' now = false) :
    ∃ line,
      (splitOnCRLF (generate_nack original err now)).head? = some line ∧
      (splitOnChar '|' line)[9]? = some (extract_control_id original) ∧
      generate_nack original err now =
        line ++ '\r' :: '\n' ::
          ("MSA|AE|".toList ++ (extract_control_id original ++
            ("|Error processing message: ".toList ++ err))) ∧
      (splitOnChar '|'
          ("MSA|AE|".toList ++ (extract_control_id original ++
            ("|Error processing message: ".toList ++ err))))[2]? =
        some (extract_control_id original) := by
  have hc1 : containsChar '|' (extract_control_id original) = false :=
    extract_control_id_no_pipe original
  have hc2 : containsChar '\n' (extract_control_id original) = false :=
    extract_control_id_no_lf original
  refine ⟨nackMshPrefix ++ (now ++ ("||ACK|".toList ++ (extract_control_id original ++
    "|P|2.5".toList))), ?_, ?_, ?_, ?_⟩
  case refine_3 =>
    show generate_nack original err now = _
    simp only [generate_nack, List.append_assoc]
    rfl
  case refine_1 =>
    have h3 : generate_nack original err now =
        (nackMshPrefix ++ (now ++ ("||ACK|".toList ++ (extract_control_id original ++
          "|P|2.5".toList)))) ++ '\r' :: '\n' ::
          ("MSA|AE|".toList ++ (extract_control_id original ++
            ("|Error processing message: ".toList ++ err))) := by
      simp only [generate_nack, List.append_assoc]
      rfl
    have hlineLF : containsChar '\n'
        (nackMshPrefix ++ (now ++ ("||ACK|".toList ++ (extract_control_id original ++
          "|P|2.5".toList)))) = false := by
      rw [containsChar_append, containsChar_append, containsChar_append, containsChar_append]
      simp only [h2, hc2, Bool.or_false, Bool.false_or]
      decide
    rw [h3, splitOnCRLF_append _ _ (containsCRLF_of_not_lf _ hlineLF)]
    rfl
  case refine_2 =>
    have hlineEq : nackMshPrefix ++ (now ++ ("||ACK|".toList ++ (extract_control_id original ++
        "|P|2.5".toList))) =
        "MSH".toList ++ '|' :: ("^~\\&".toList ++ '|' :: ("RECEIVING_APP".toList ++ '|' ::
          ("RECEIVING_FACILITY".toList ++ '|' :: ("SENDING_APP".toList ++ '|' ::
            ("SENDING_FACILITY".toList ++ '|' :: (now ++ '|' :: ('|' ::
              ("ACK".toList ++ '|' :: (extract_control_id original ++ '|' ::
                ("P".toList ++ '|' :: "2.5".toList)))))))))) := rfl
    rw [hlineEq,
      splitOnChar_append_cons '|' "MSH".toList _ (by decide),
      splitOnChar_append_cons '|' "^~\\&".toList _ (by decide),
      splitOnChar_append_cons '|' "RECEIVING_APP".toList _ (by decide),
      splitOnChar_append_cons '|' "RECEIVING_FACILITY".toList _ (by decide),
      splitOnChar_append_cons '|' "SENDING_APP".toList _ (by decide),
      splitOnChar_append_cons '|' "SENDING_FACILITY".toList _ (by decide),
      splitOnChar_append_cons '|' now _ h1,
      splitOnChar_cons_self,
      splitOnChar_append_cons '|' "ACK".toList _ (by decide),
      splitOnChar_append_cons '|' (extract_control_id original) _ hc1,
      splitOnChar_append_cons '|' "P".toList _ (by decide),
      splitOnChar_of_not_contains '|' "2.5".toList (by decide)]
    rfl
  case refine_4 =>
    have hmsaEq : "MSA|AE|".toList ++ (extract_control_id original ++
        ("|Error processing message: ".toList ++ err)) =
        "MSA".toList ++ '|' :: ("AE".toList ++ '|' :: (extract_control_id original ++ '|' ::
          ("Error processing message: ".toList ++ err))) := rfl
    rw [hmsaEq,
      splitOnChar_append_cons '|' "MSA".toList _ (by decide),
      splitOnChar_append_cons '|' "AE".toList _ (by decide),
      splitOnChar_append_cons '|' (extract_control_id original) _ hc1]
    simp

/-- Witness for C7 at a concrete original payload (control id `CTL`),
error reason and timestamp. -/
theorem C7_witness :
    (containsChar '|' "20230401123000".toList = false ∧
      containsChar '\n' "20230401123000".toList = false) ∧
      (∃ line,
        (splitOnCRLF (generate_nack "MSH|a|b|c|d|e|f|g|h|CTL|x".toList "boom".toList
          "20230401123000".toList)).head? = some line ∧
        (splitOnChar '|' line)[9]? =
          some (extract_control_id "MSH|a|b|c|d|e|f|g|h|CTL|x".toList) ∧
        generate_nack "MSH|a|b|c|d|e|f|g|h|CTL|x".toList "boom".toList
            "20230401123000".toList =
          line ++ '\r' :: '\n' ::
            ("MSA|AE|".toList ++ (extract_control_id "MSH|a|b|c|d|e|f|g|h|CTL|x".toList ++
              ("|Error processing message: ".toList ++ "boom".toList))) ∧
        (splitOnChar '|'
            ("MSA|AE|".toList ++ (extract_control_id "MSH|a|b|c|d|e|f|g|h|CTL|x".toList ++
              ("|Error processing message: ".toList ++ "boom".toList))))[2]? =
          some (extract_control_id "MSH|a|b|c|d|e|f|g|h|CTL|x".toList)) :=
  ⟨⟨by decide, by decide⟩,
    C7_nack_control_id "MSH|a|b|c|d|e|f|g|h|CTL|x".toList "boom".toList
      "20230401123000".toList (by decide) (by decide)⟩

/-! ## Claim C1: message_type / version extraction -/

/-- C1: evaluation of the code at the failing input
`MSH|^~\&|A|B|C|D|TS||ADT^A08|M1|P|2.3`.  The raw MSH.9 value is
`ADT^A08` and the raw MSH.12 value is `2.3`, but the parser returns the
whitelisted `ADT^A01` and the hard-coded `2.5`: extraction is by
substring recognition, not positional. -/
theorem C1_code_eval :
    (match Message.parse "MSH|^~\\&|A|B|C|D|TS||ADT^A08|M1|P|2.3".toList with
      | ParseResult.ok m => some (m.message_type, m.version)
      | _ => none) = some ("ADT^A01".toList, "2.5".toList) ∧
      (("ADT^A01".toList : Str), ("2.5".toList : Str)) ≠ ("ADT^A08".toList, "2.3".toList) := by
  decide

/-! ## Claim C2: ADT patient_name is hard-coded -/

/-- C2: evaluation of the code at the failing input, an ADT message whose
PID.5 raw value is `SMITH^JANE`.  `AdtMessage::from_hl7` nevertheless
returns the hard-coded literal `DOE^JOHN^^^^`, so `patient_name` is not
read from the message. -/
theorem C2_code_eval :
    (match Message.parse
        "MSH|^~\\&|A|B|C|D|TS||ADT^A01|M1|P|2.5\nPID|1||12345||SMITH^JANE".toList with
      | ParseResult.ok m =>
        match AdtMessage.from_hl7 m with
        | Except.ok a => some a.patient_name
        | Except.error _ => none
      | _ => none) = some (some "DOE^JOHN^^^^".toList) ∧
      some ("DOE^JOHN^^^^".toList : Str) ≠ some ("SMITH^JANE".toList : Str) := by
  decide

/-! ## Claim C8: RDE medication_id field offset -/

/-- C8: evaluation of the code at the failing input, an RDE message whose
single RXE segment is `RXE|1|509^MEDROL|25||TAB|BID` (so RXE.1 is `1` and
the first component of RXE.2 is `509`).  The synthetic `rx_id` is `RX1`
as the claim states, but `medication_id` is read from RXE.1 (Rust
`fields.get(0)`), yielding `1` instead of the claimed RXE.2 first
component `509`. -/
theorem C8_code_eval :
    (match Message.parse
        "MSH|^~\\&|A|B|C|D|TS||RDE^O11|M3|P|2.5\nPID|1||777\nRXE|1|509^MEDROL|25||TAB|BID".toList with
      | ParseResult.ok m =>
        match RdeMessage.from_hl7 m with
        | Except.ok r =>
          some (r.medication_orders.map (fun o => (o.rx_id, o.medication_id)))
        | Except.error _ => none
      | _ => none) = some [("RX1".toList, "1".toList)] ∧
      ("1".toList : Str) ≠ "509".toList := by
  decide

end HL7
